import Mathlib

/-!
# Verification of the english-analyzer-api core pipeline

Shallow embedding of `src/main.py`: the syllable counter `count_syllables`
and the analysis endpoint `analyze_text` (tokenization, Flesch-Kincaid
grade, CEFR/IELTS mapping, academic-vocabulary extraction).

Modelling conventions:
* strings are `List Char`, restricted to the ASCII behaviour the spec
  declares in scope ("no internationalization, ASCII-letter words only");
* Python `float` arithmetic is modelled by exact rationals `ℚ`, and
  Python's `round` by round-half-to-even on the exact value;
* Python's `set` has no specified iteration order, so `list(set)` is
  modelled by an explicit order parameter `ord` applied to the first-seen
  deduplication of the qualifying words; theorems quantify over `ord`;
* the `try`/`except` wrapper of `analyze_text` is modelled by `Except`:
  the only exception reachable inside the `try` block is the
  `ValueError` guard, which FastAPI surfaces as an HTTP 500 whose detail
  wraps the message.
-/

set_option maxRecDepth 4000

namespace EnglishAnalyzer

/-- Dropping a prefix never lengthens a list (termination helper). -/
theorem len_dropWhile_le {α : Type} (p : α → Bool) (l : List α) :
    (l.dropWhile p).length ≤ l.length :=
  (List.dropWhile_suffix p).sublist.length_le

/-- ASCII letter, as matched by the regex character class `[a-zA-Z]`. -/
def isAsciiLetter (c : Char) : Bool :=
  ('a' ≤ c && c ≤ 'z') || ('A' ≤ c && c ≤ 'Z')

/-- ASCII digit `[0-9]`. -/
def isAsciiDigit (c : Char) : Bool := '0' ≤ c && c ≤ '9'

/-- Regex word character `\w` (ASCII): letter, digit or underscore.
Word boundaries `\b` in `\b[a-zA-Z]+\b` are transitions between word and
non-word characters. -/
def isWordChar (c : Char) : Bool := isAsciiLetter c || isAsciiDigit c || c == '_'

/-- Sentence terminator from the regex class `[.!?]`. -/
def isSentDelim (c : Char) : Bool := c == '.' || c == '!' || c == '?'

/-- Whitespace removed by Python `str.strip()` (ASCII range:
space, tab, newline, carriage return, vertical tab, form feed). -/
def isPySpace (c : Char) : Bool :=
  c == ' ' || c == '\t' || c == '\n' || c == '\r' ||
  c == Char.ofNat 11 || c == Char.ofNat 12

/-- The 26 (uppercase, lowercase) ASCII letter pairs. -/
def upperLowerPairs : List (Char × Char) :=
  [('A','a'), ('B','b'), ('C','c'), ('D','d'), ('E','e'), ('F','f'),
   ('G','g'), ('H','h'), ('I','i'), ('J','j'), ('K','k'), ('L','l'),
   ('M','m'), ('N','n'), ('O','o'), ('P','p'), ('Q','q'), ('R','r'),
   ('S','s'), ('T','t'), ('U','u'), ('V','v'), ('W','w'), ('X','x'),
   ('Y','y'), ('Z','z')]

/-- Python `str.lower()`, restricted to ASCII: each of the 26 uppercase
letters maps to its lowercase form, every other character is unchanged. -/
def pyLower (c : Char) : Char :=
  match upperLowerPairs.find? (fun p => p.1 == c) with
  | some p => p.2
  | none => c

/-- Python `str.strip()`: drop leading and trailing whitespace. -/
def pyStrip (l : List Char) : List Char :=
  ((l.dropWhile isPySpace).reverse.dropWhile isPySpace).reverse

/-- The vowel set `"aeiouy"` used by `count_syllables`. -/
def isVowel (c : Char) : Bool :=
  c == 'a' || c == 'e' || c == 'i' || c == 'o' || c == 'u' || c == 'y'

/-- `count_syllables` from `src/main.py` lines 15-32: lowercase the word;
words of length ≤ 3 count 1; otherwise count vowel-group starts
(a vowel whose predecessor is not a vowel, plus 1 if the first character
is a vowel), subtract 1 for a trailing `'e'`, add 1 back for a `"le"`
ending preceded by a non-vowel, and bump a zero count to 1.
Python's `int` is modelled by `ℤ`. -/
def count_syllables (w0 : List Char) : Int :=
  let word := w0.map pyLower
  if word.length ≤ 3 then 1
  else
    let c0 : Int := if isVowel word.headI then 1 else 0
    let groups : Nat := (word.zip word.tail).countP fun p => isVowel p.2 && !isVowel p.1
    let c1 : Int := c0 + groups
    let c2 : Int := if word.reverse.headI == 'e' then c1 - 1 else c1
    let c3 : Int :=
      if word.reverse.take 2 == ['e', 'l'] && decide (2 < word.length)
          && !isVowel (word.reverse.getD 2 ' ') then c2 + 1 else c2
    if c3 = 0 then c3 + 1 else c3

/-- `re.split(r'[.!?]+', text)`: split on maximal runs of sentence
terminators, keeping (possibly empty) segments between runs. -/
def splitSents (cs : List Char) : List (List Char) :=
  match h : cs.dropWhile (fun c => !isSentDelim c) with
  | [] => [cs.takeWhile (fun c => !isSentDelim c)]
  | _ :: t => cs.takeWhile (fun c => !isSentDelim c) :: splitSents (t.dropWhile isSentDelim)
termination_by cs.length
decreasing_by
  have h1 : (cs.dropWhile (fun c => !isSentDelim c)).length ≤ cs.length :=
    (List.dropWhile_suffix _).sublist.length_le
  rw [h] at h1
  have h2 : (t.dropWhile isSentDelim).length ≤ t.length :=
    (List.dropWhile_suffix _).sublist.length_le
  simp only [List.length_cons] at h1
  omega

/-- The sentence list of `analyze_text` line 44:
`[s for s in re.split(r'[.!?]+', text) if len(s.strip()) > 0]`. -/
def sentencesOf (text : List Char) : List (List Char) :=
  (splitSents text).filter fun s => decide (0 < (pyStrip s).length)

/-- Scanner for `re.findall(r'\b[a-zA-Z]+\b', ·)`.  `prevW` records
whether the previously scanned character was a word character (`\b`
holds at a position iff exactly one side is a word character).  A
maximal letter run is emitted iff the character before it (if any) and
the character after it (if any) are both non-word characters; a run
touching a digit or underscore yields no match at all, because no word
boundary exists inside a run of word characters. -/
def wordsAux (prevW : Bool) (cs : List Char) : List (List Char) :=
  match cs with
  | [] => []
  | c :: rest =>
    if isAsciiLetter c then
      let run := c :: rest.takeWhile isAsciiLetter
      let rest2 := rest.dropWhile isAsciiLetter
      let keep := !prevW && (match rest2 with
        | [] => true
        | d :: _ => !isWordChar d)
      (if keep then [run] else []) ++ wordsAux true rest2
    else
      wordsAux (isWordChar c) rest
termination_by cs.length
decreasing_by
  all_goals simp only [List.length_cons]
  all_goals first
    | exact Nat.lt_succ_of_le (len_dropWhile_le _ _)
    | omega

/-- The word list of `analyze_text` line 43:
`re.findall(r'\b[a-zA-Z]+\b', text.lower())`. -/
def findWords (text : List Char) : List (List Char) :=
  wordsAux false (text.map pyLower)

/-- First-seen deduplication: the mathematical content of accumulating
`words` into a Python `set` (membership and cardinality; the iteration
order of the set is modelled separately by an order parameter). -/
def pyDedup : List (List Char) → List (List Char)
  | [] => []
  | a :: t => a :: pyDedup (t.filter fun x => x != a)
termination_by l => l.length
decreasing_by
  have := List.length_filter_le (fun x => x != a) t
  simp only [List.length_cons]
  omega

/-- Python `round(q, p)` modelled on exact rationals: round-half-to-even
at `p` decimal digits. -/
def pyRound (q : ℚ) (p : Nat) : ℚ :=
  let m : ℚ := (10 : ℚ) ^ p
  let t := q * m
  let f : Int := ⌊t⌋
  let r := t - (f : ℚ)
  let n : Int := if r < 1/2 then f else if 1/2 < r then f + 1
    else if f % 2 = 0 then f else f + 1
  (n : ℚ) / m

/-- Python `round(q)` (no digit argument): round-half-to-even to an integer. -/
def pyRound0 (q : ℚ) : Int :=
  let f : Int := ⌊q⌋
  let r := q - (f : ℚ)
  if r < 1/2 then f else if 1/2 < r then f + 1
  else if f % 2 = 0 then f else f + 1

/-- Lines 58-62 of `src/main.py`: the Flesch-Kincaid grade from word
count `W`, sentence count `S` and syllable total `T`:
`max(0, round(0.39 * (W/S) + 11.8 * (T/W) - 15.59, 1))`. -/
def fkGradeOf (W S : Nat) (T : Int) : ℚ :=
  let avg_words_per_sentence : ℚ := (W : ℚ) / (S : ℚ)
  let avg_syllables_per_word : ℚ := (T : ℚ) / (W : ℚ)
  let g := pyRound (0.39 * avg_words_per_sentence + 11.8 * avg_syllables_per_word - 15.59) 1
  -- `max(0, g)`, written out by `max_def` so that the kernel can evaluate it
  if 0 ≤ g then g else 0

/-- Lines 74-82 of `src/main.py`: the CEFR/IELTS pair derived from the
Flesch-Kincaid grade. -/
def proficiencyOf (fk_grade : ℚ) : String × String :=
  if fk_grade ≥ 12 then ("C1/C2 (Advanced/Proficient)", "7.5+")
  else if fk_grade ≥ 9 then ("B2 (Upper Intermediate)", "6.0 - 7.0")
  else ("B1 (Intermediate)", "5.0 - 5.5")

/-- Line 69 of `src/main.py`: a word is academic iff
`len(word) >= 9 or (len(word) >= 7 and count_syllables(word) >= 3)`. -/
def isAcademic (w : List Char) : Bool :=
  decide (9 ≤ w.length) || (decide (7 ≤ w.length) && decide ((3 : Int) ≤ count_syllables w))

/-- Errors surfaced by `analyze_text`: the HTTP 400 "too short" guard
(line 38-39), and the HTTP 500 wrapper produced by the `except` clause
around the pipeline, carrying the wrapped exception message. -/
inductive ApiError where
  | textTooShort : ApiError
  | engineError : String → ApiError
deriving DecidableEq, Repr

/-- The message of the `ValueError` raised by the zero-content guard
(line 51), as wrapped by the `except` clause. -/
def noContentMsg : String := "No valid words or sentences found."

/-- The success payload of `analyze_text` (lines 85-104), with the
nested JSON object flattened to one structure. -/
structure Result where
  total_words : Nat
  total_sentences : Nat
  total_syllables : Int
  average_words_per_sentence : ℚ
  average_syllables_per_word : ℚ
  flesch_kincaid_grade_level : ℚ
  reading_level_description : String
  estimated_cefr_level : String
  estimated_ielts_band : String
  academic_vocabulary_count : Nat
  academic_vocabulary_extracted : List (List Char)
deriving DecidableEq, Repr

/-- The success path of `analyze_text` (lines 53-104), parameterized by
`ord`, the iteration order Python uses when materializing
`list(academic_words)` (unspecified for `set`). -/
def buildResult (ord : List (List Char) → List (List Char)) (text : List Char) : Result :=
  let words := findWords text
  let sentences := sentencesOf text
  let word_count := words.length
  let sentence_count := sentences.length
  let total_syllables : Int := (words.map count_syllables).sum
  let avg_words_per_sentence : ℚ := (word_count : ℚ) / (sentence_count : ℚ)
  let avg_syllables_per_word : ℚ := (total_syllables : ℚ) / (word_count : ℚ)
  let fk_grade := fkGradeOf word_count sentence_count total_syllables
  let academic_words_list := ord (pyDedup (words.filter isAcademic))
  let prof := proficiencyOf fk_grade
  { total_words := word_count
    total_sentences := sentence_count
    total_syllables := total_syllables
    average_words_per_sentence := pyRound avg_words_per_sentence 2
    average_syllables_per_word := pyRound avg_syllables_per_word 2
    flesch_kincaid_grade_level := fk_grade
    reading_level_description :=
      "Grade " ++ toString (pyRound0 fk_grade) ++ " (US Education System)"
    estimated_cefr_level := prof.1
    estimated_ielts_band := prof.2
    academic_vocabulary_count := academic_words_list.length
    academic_vocabulary_extracted := academic_words_list.take 15 }

/-- `analyze_text` from `src/main.py` lines 35-107: the length guard
(`not text or len(text.strip()) < 20`), the zero-content guard, and the
success path. -/
def analyze_text (ord : List (List Char) → List (List Char)) (text : List Char) :
    Except ApiError Result :=
  if text = [] ∨ (pyStrip text).length < 20 then .error .textTooShort
  else if (findWords text).length = 0 ∨ (sentencesOf text).length = 0 then
    .error (.engineError noContentMsg)
  else .ok (buildResult ord text)

/-- Projection: the reported `total_words` of an analysis outcome. -/
def totalWordsOf : Except ApiError Result → Option Nat
  | .ok r => some r.total_words
  | .error _ => none

/-- Projection: the reported `academic_vocabulary_extracted` of an
analysis outcome. -/
def extractedOf : Except ApiError Result → Option (List (List Char))
  | .ok r => some r.academic_vocabulary_extracted
  | .error _ => none

/-- Modelled from the spec ("scan the text for maximal runs matching one
or more ASCII letters"): the number of maximal ASCII-letter runs of a
string, the reference tokenizer count that claim C5 compares against. -/
def letterRunCount (cs : List Char) : Nat :=
  match cs with
  | [] => 0
  | c :: rest =>
    if isAsciiLetter c then 1 + letterRunCount (rest.dropWhile isAsciiLetter)
    else letterRunCount rest
termination_by cs.length
decreasing_by
  all_goals simp only [List.length_cons]
  all_goals first
    | exact Nat.lt_succ_of_le (len_dropWhile_le _ _)
    | omega

/-- An ASCII digit or underscore: a word character that is not a letter.
Adjacent to a letter run, such a character suppresses the `\b` match. -/
def isDigitU (c : Char) : Bool := isAsciiDigit c || c == '_'

/-- Neither orientation of the pair `(a, b)` puts a letter next to a
digit or underscore. -/
def noAdjPair (a b : Char) : Bool :=
  !(isAsciiLetter a && isDigitU b) && !(isDigitU a && isAsciiLetter b)

/-- No letter of the string is adjacent to a digit or underscore. -/
def noAdj (cs : List Char) : Bool :=
  (cs.zip cs.tail).all fun p => noAdjPair p.1 p.2

/-! ## Character-level facts about `pyLower` -/

/-- `pyLower` either realizes one of the 26 uppercase/lowercase pairs or
fixes its argument. -/
theorem pyLower_spec (c : Char) : (c, pyLower c) ∈ upperLowerPairs ∨ pyLower c = c := by
  unfold pyLower
  cases hf : upperLowerPairs.find? (fun p => p.1 == c) with
  | none => exact Or.inr rfl
  | some p =>
    left
    have hmem := List.mem_of_find?_eq_some hf
    have hp := List.find?_some hf
    have : p.1 = c := by simpa using hp
    rw [← this]
    simpa using hmem

/-- Character-class facts about each uppercase/lowercase pair, checked by
computation: lowering preserves space-ness, terminator-ness, letter-ness,
digit-or-underscore-ness and word-character-ness, and is idempotent. -/
theorem upperLowerPairs_fact : ∀ p ∈ upperLowerPairs,
    isPySpace p.2 = isPySpace p.1 ∧ isSentDelim p.2 = isSentDelim p.1 ∧
    isAsciiLetter p.2 = isAsciiLetter p.1 ∧ isDigitU p.2 = isDigitU p.1 ∧
    isWordChar p.2 = isWordChar p.1 ∧ pyLower p.2 = p.2 := by decide

theorem isPySpace_pyLower (c : Char) : isPySpace (pyLower c) = isPySpace c := by
  rcases pyLower_spec c with h | h
  · exact (upperLowerPairs_fact _ h).1
  · rw [h]

theorem isSentDelim_pyLower (c : Char) : isSentDelim (pyLower c) = isSentDelim c := by
  rcases pyLower_spec c with h | h
  · exact (upperLowerPairs_fact _ h).2.1
  · rw [h]

theorem isAsciiLetter_pyLower (c : Char) : isAsciiLetter (pyLower c) = isAsciiLetter c := by
  rcases pyLower_spec c with h | h
  · exact (upperLowerPairs_fact _ h).2.2.1
  · rw [h]

theorem isDigitU_pyLower (c : Char) : isDigitU (pyLower c) = isDigitU c := by
  rcases pyLower_spec c with h | h
  · exact (upperLowerPairs_fact _ h).2.2.2.1
  · rw [h]

theorem isWordChar_pyLower (c : Char) : isWordChar (pyLower c) = isWordChar c := by
  rcases pyLower_spec c with h | h
  · exact (upperLowerPairs_fact _ h).2.2.2.2.1
  · rw [h]

theorem pyLower_pyLower (c : Char) : pyLower (pyLower c) = pyLower c := by
  rcases pyLower_spec c with h | h
  · exact (upperLowerPairs_fact _ h).2.2.2.2.2
  · rw [h, h]

/-! ## Syllable-count positivity -/

/-- If a non-vowel-headed list contains a vowel, the vowel-group scan over
consecutive pairs counts at least one group start. -/
theorem countP_zip_pos :
    ∀ (a : Char) (l : List Char), isVowel a = false → (∃ c ∈ l, isVowel c = true) →
      1 ≤ ((a :: l).zip l).countP fun p => isVowel p.2 && !isVowel p.1 := by
  intro a l
  induction l generalizing a with
  | nil => rintro _ ⟨c, hc, _⟩; exact absurd hc (List.not_mem_nil c)
  | cons b t ih =>
    intro ha hex
    rw [List.zip_cons_cons]
    by_cases hb : isVowel b = true
    · rw [List.countP_cons_of_pos]
      · omega
      · simp [hb, ha]
    · rw [List.countP_cons_of_neg]
      · refine ih b (by simpa using hb) ?_
        rcases hex with ⟨c, hc, hcv⟩
        rcases List.mem_cons.mp hc with rfl | hct
        · exact absurd hcv (by simpa using hb)
        · exact ⟨c, hct, hcv⟩
      · simp [Bool.eq_false_iff.mp (by simpa using hb)]

/-- If a list contains a vowel, the initial-vowel credit plus the
vowel-group count is at least one. -/
theorem vowel_count_pos (l : List Char) (hl : ∃ c ∈ l, isVowel c = true) :
    1 ≤ (if isVowel l.headI then (1 : Int) else 0) +
      ((l.zip l.tail).countP fun p => isVowel p.2 && !isVowel p.1 : Nat) := by
  match l with
  | [] => rcases hl with ⟨c, hc, _⟩; exact absurd hc (List.not_mem_nil c)
  | a :: t =>
    by_cases hv : isVowel a = true
    · have hn : (0 : Int) ≤ ((a :: t).zip (a :: t).tail).countP
          fun p => isVowel p.2 && !isVowel p.1 := Int.ofNat_nonneg _
      rw [List.headI_cons, if_pos hv]
      omega
    · have hvt : ∃ c ∈ t, isVowel c = true := by
        rcases hl with ⟨c, hc, hcv⟩
        rcases List.mem_cons.mp hc with rfl | hct
        · exact absurd hcv hv
        · exact ⟨c, hct, hcv⟩
      have := countP_zip_pos a t (Bool.eq_false_iff.mpr hv) hvt
      rw [List.headI_cons, if_neg hv]
      simp only [List.tail_cons]
      omega

/-- Arithmetic core of the syllable count: the silent-e decrement, the
"-le" increment and the final zero bump keep the count at least 1,
provided a set silent-e flag guarantees one counted vowel group. -/
theorem syllable_arith (c0 : Int) (g : Nat) (b1 b2 : Bool)
    (hone : b1 = true → 1 ≤ c0 + (g : Int)) (h0 : 0 ≤ c0) :
    1 ≤ (if (if b2 then (if b1 then c0 + (g : Int) - 1 else c0 + (g : Int)) + 1
              else (if b1 then c0 + (g : Int) - 1 else c0 + (g : Int))) = 0
         then (if b2 then (if b1 then c0 + (g : Int) - 1 else c0 + (g : Int)) + 1
              else (if b1 then c0 + (g : Int) - 1 else c0 + (g : Int))) + 1
         else (if b2 then (if b1 then c0 + (g : Int) - 1 else c0 + (g : Int)) + 1
              else (if b1 then c0 + (g : Int) - 1 else c0 + (g : Int)))) := by
  by_cases hb1 : b1 = true
  · have h1 := hone hb1
    simp only [hb1, if_true]
    split_ifs <;> omega
  · replace hb1 : b1 = false := by simpa using hb1
    have hg : (0 : Int) ≤ (g : Int) := Int.ofNat_nonneg _
    simp only [hb1, Bool.false_eq_true, if_false]
    split_ifs <;> omega

/-- C1: for every non-empty string of ASCII letters, `count_syllables`
returns an integer ≥ 1 (it is a Lean function, hence deterministic and
total; the final bump and the fact that a trailing `'e'` guarantees a
counted vowel group keep the result positive). -/
theorem count_syllables_ge_one (w : List Char) (hne : w ≠ [])
    (_hletters : ∀ c ∈ w, isAsciiLetter c = true) : 1 ≤ count_syllables w := by
  simp only [count_syllables]
  by_cases h3 : (w.map pyLower).length ≤ 3
  · rw [if_pos h3]
  · rw [if_neg h3]
    have hwne : w.map pyLower ≠ [] := by simpa using hne
    apply syllable_arith
    · intro hb1
      apply vowel_count_pos
      refine ⟨'e', ?_, by decide⟩
      cases hrev : (w.map pyLower).reverse with
      | nil => exact absurd (List.reverse_eq_nil_iff.mp hrev) hwne
      | cons a t =>
        have ha : a = 'e' := by
          have : (w.map pyLower).reverse.headI = 'e' := by simpa using hb1
          rw [hrev] at this
          simpa using this
        have : a ∈ (w.map pyLower).reverse := by rw [hrev]; exact List.mem_cons_self a t
        rw [ha] at this
        exact List.mem_reverse.mp this
    · split_ifs <;> omega

/-- C2 counterexample: on the concrete input `"table"` the code returns
2 syllables (the vowel groups `a` and final `e` count 2, silent-e brings
it to 1, and the `-le` rule re-adds 1), so the claimed value 1 is wrong. -/
theorem count_syllables_table_ne_one :
    count_syllables "table".toList = 2 ∧ count_syllables "table".toList ≠ 1 := by
  with_unfolding_all decide

/-- C2 amended: `count_syllables "cat" = 1`, `count_syllables "table" = 2`
(silent-e cancels the second vowel group, the `-le` rule re-adds one, so
the net count is 2, not 1), and `count_syllables "beautiful" = 3`. -/
theorem count_syllables_fixtures :
    count_syllables "cat".toList = 1 ∧ count_syllables "table".toList = 2 ∧
    count_syllables "beautiful".toList = 3 := by
  with_unfolding_all decide

/-- Witness for C1 at the concrete input `"hello"`. -/
theorem count_syllables_ge_one_witness :
    ("hello".toList ≠ ([] : List Char)) ∧
    (∀ c ∈ "hello".toList, isAsciiLetter c = true) ∧
    1 ≤ count_syllables "hello".toList :=
  ⟨by decide, by decide,
    count_syllables_ge_one "hello".toList (by decide) (by decide)⟩

/-- C3: for positive word, sentence and syllable counts the grade is
`max(0, round(0.39*(W/S) + 11.8*(T/W) - 15.59, 1))`, hence never
negative, and the fixture `W=100, S=5, T=150` evaluates to 9.9. -/
theorem fkGrade_spec :
    (∀ (W S : Nat) (T : Int), 0 < W → 0 < S → 0 < T →
      fkGradeOf W S T =
        max 0 (pyRound (0.39 * ((W : ℚ) / (S : ℚ)) + 11.8 * ((T : ℚ) / (W : ℚ)) - 15.59) 1) ∧
      0 ≤ fkGradeOf W S T) ∧
    fkGradeOf 100 5 150 = 9.9 := by
  constructor
  · intro W S T _ _ _
    constructor
    · simp only [fkGradeOf]
      rw [max_def]
    · simp only [fkGradeOf]
      split_ifs with h
      · exact h
      · exact le_refl 0
  · with_unfolding_all decide

/-- Witness for C3 at the fixture `W=100, S=5, T=150`. -/
theorem fkGrade_spec_witness :
    (0 : Nat) < 100 ∧ (0 : Nat) < 5 ∧ (0 : Int) < 150 ∧
    (fkGradeOf 100 5 150 =
        max 0 (pyRound (0.39 * ((100 : ℚ) / (5 : ℚ)) + 11.8 * ((150 : ℚ) / (100 : ℚ)) - 15.59) 1) ∧
      0 ≤ fkGradeOf 100 5 150) :=
  ⟨by decide, by decide, by decide,
    fkGrade_spec.1 100 5 150 (by decide) (by decide) (by decide)⟩

/-- C4: the proficiency pair is the top tier iff the grade is ≥ 12, the
middle tier iff it is in [9, 12), and the base tier iff it is < 9; the
boundaries are closed above: 12.0 maps to top, 9.0 to middle, 8.9 to base. -/
theorem proficiency_tiers :
    (∀ g : ℚ,
      (proficiencyOf g = ("C1/C2 (Advanced/Proficient)", "7.5+") ↔ 12 ≤ g) ∧
      (proficiencyOf g = ("B2 (Upper Intermediate)", "6.0 - 7.0") ↔ 9 ≤ g ∧ g < 12) ∧
      (proficiencyOf g = ("B1 (Intermediate)", "5.0 - 5.5") ↔ g < 9)) ∧
    proficiencyOf 12 = ("C1/C2 (Advanced/Proficient)", "7.5+") ∧
    proficiencyOf 9 = ("B2 (Upper Intermediate)", "6.0 - 7.0") ∧
    proficiencyOf (8.9 : ℚ) = ("B1 (Intermediate)", "5.0 - 5.5") := by
  refine ⟨fun g => ?_, ?_, ?_, ?_⟩
  · by_cases h12 : (12 : ℚ) ≤ g
    · have hp : proficiencyOf g = ("C1/C2 (Advanced/Proficient)", "7.5+") := by
        simp only [proficiencyOf]
        rw [if_pos h12]
      rw [hp]
      exact ⟨iff_of_true rfl h12,
        iff_of_false (by decide) (fun h => absurd h.2 (not_lt.mpr h12)),
        iff_of_false (by decide)
          (fun h => absurd (lt_of_lt_of_le h (by norm_num)) (not_lt.mpr h12))⟩
    · by_cases h9 : (9 : ℚ) ≤ g
      · have hp : proficiencyOf g = ("B2 (Upper Intermediate)", "6.0 - 7.0") := by
          simp only [proficiencyOf]
          rw [if_neg h12, if_pos h9]
        rw [hp]
        exact ⟨iff_of_false (by decide) h12,
          iff_of_true rfl ⟨h9, not_le.mp h12⟩,
          iff_of_false (by decide) (not_lt.mpr h9)⟩
      · have hp : proficiencyOf g = ("B1 (Intermediate)", "5.0 - 5.5") := by
          simp only [proficiencyOf]
          rw [if_neg h12, if_neg h9]
        rw [hp]
        exact ⟨iff_of_false (by decide) h12,
          iff_of_false (by decide) (fun h => h9 h.1),
          iff_of_true rfl (not_le.mp h9)⟩
  · with_unfolding_all decide
  · with_unfolding_all decide
  · with_unfolding_all decide

/-! ## Inversion of `analyze_text` -/

theorem analyze_ok_iff (ord : List (List Char) → List (List Char)) (text : List Char)
    (r : Result) :
    analyze_text ord text = .ok r ↔
      ¬(text = [] ∨ (pyStrip text).length < 20) ∧
      ¬((findWords text).length = 0 ∨ (sentencesOf text).length = 0) ∧
      r = buildResult ord text := by
  unfold analyze_text
  split_ifs with h1 h2
  · exact iff_of_false (by simp) (fun hc => hc.1 h1)
  · exact iff_of_false (by simp) (fun hc => hc.2.1 h2)
  · constructor
    · intro h
      exact ⟨h1, h2, (Except.ok.inj h).symm⟩
    · rintro ⟨_, _, rfl⟩
      rfl

theorem buildResult_total_words (ord : List (List Char) → List (List Char))
    (text : List Char) :
    (buildResult ord text).total_words = (findWords text).length := rfl

theorem buildResult_total_sentences (ord : List (List Char) → List (List Char))
    (text : List Char) :
    (buildResult ord text).total_sentences = (sentencesOf text).length := rfl

theorem buildResult_academic_count (ord : List (List Char) → List (List Char))
    (text : List Char) :
    (buildResult ord text).academic_vocabulary_count =
      (ord (pyDedup ((findWords text).filter isAcademic))).length := rfl

theorem buildResult_academic_extracted (ord : List (List Char) → List (List Char))
    (text : List Char) :
    (buildResult ord text).academic_vocabulary_extracted =
      (ord (pyDedup ((findWords text).filter isAcademic))).take 15 := rfl

/-- `re.split(r'[.!?]+', cs)` on a string with no terminator returns the
whole string as the only segment. -/
theorem splitSents_of_dropWhile_nil (cs : List Char)
    (h : cs.dropWhile (fun c => !isSentDelim c) = []) :
    splitSents cs = [cs.takeWhile (fun c => !isSentDelim c)] := by
  rw [splitSents]
  split
  · rfl
  · rename_i heq
    rw [h] at heq
    simp at heq

/-- C7: the analysis reports the "text too short" error exactly when the
input is empty or its whitespace-trimmed length is below the threshold
(20 characters in this code), and no analysis result is produced then. -/
theorem tooShort_iff (ord : List (List Char) → List (List Char)) (text : List Char) :
    analyze_text ord text = .error .textTooShort ↔
      text = [] ∨ (pyStrip text).length < 20 := by
  unfold analyze_text
  split_ifs with h1 h2
  · simp [h1]
  · simp [h1]
  · simp [h1]

/-- C6: `total_sentences` counts the segments obtained by splitting on
maximal terminator runs that are non-empty after trimming, and a
terminator-free text that is non-empty after trimming yields exactly one
sentence. -/
theorem sentences_spec :
    (∀ (ord : List (List Char) → List (List Char)) (text : List Char) (r : Result),
      analyze_text ord text = .ok r → r.total_sentences = (sentencesOf text).length) ∧
    (∀ text : List Char, (∀ c ∈ text, isSentDelim c = false) → pyStrip text ≠ [] →
      (sentencesOf text).length = 1) := by
  constructor
  · intro ord text r h
    rcases (analyze_ok_iff ord text r).mp h with ⟨_, _, rfl⟩
    rfl
  · intro text hnd hns
    have hdrop : text.dropWhile (fun c => !isSentDelim c) = [] := by
      rw [List.dropWhile_eq_nil_iff]
      intro x hx
      simp [hnd x hx]
    have htake : text.takeWhile (fun c => !isSentDelim c) = text := by
      rw [List.takeWhile_eq_self_iff]
      intro x hx
      simp [hnd x hx]
    have hpos : decide (0 < (pyStrip text).length) = true := by
      simpa [List.length_pos] using hns
    rw [sentencesOf, splitSents_of_dropWhile_nil text hdrop, htake]
    simp [List.filter, hpos]

/-- Witness for C6 at a concrete terminator-free text. -/
theorem sentences_spec_witness :
    (sentencesOf "this text has no ending marks".toList).length = 1 :=
  sentences_spec.2 "this text has no ending marks".toList (by decide) (by decide)

/-- C8: an input passing the length guard but tokenizing to zero words or
zero sentences yields the no-content error (the wrapped `ValueError`
message, a value distinct from the too-short error); the pipeline never
divides by zero because every successful result has positive word and
sentence counts; and no other error value is reachable. -/
theorem noContent_spec :
    (∀ (ord : List (List Char) → List (List Char)) (text : List Char),
      ¬(text = [] ∨ (pyStrip text).length < 20) →
      ((findWords text).length = 0 ∨ (sentencesOf text).length = 0) →
      analyze_text ord text = .error (.engineError noContentMsg)) ∧
    (∀ (ord : List (List Char) → List (List Char)) (text : List Char) (r : Result),
      analyze_text ord text = .ok r → 0 < r.total_words ∧ 0 < r.total_sentences) ∧
    (∀ (ord : List (List Char) → List (List Char)) (text : List Char) (e : ApiError),
      analyze_text ord text = .error e →
      e = .textTooShort ∨ e = .engineError noContentMsg) ∧
    ApiError.engineError noContentMsg ≠ ApiError.textTooShort := by
  refine ⟨?_, ?_, ?_, by decide⟩
  · intro ord text h1 h2
    unfold analyze_text
    rw [if_neg h1, if_pos h2]
  · intro ord text r h
    rcases (analyze_ok_iff ord text r).mp h with ⟨_, h2, rfl⟩
    rcases not_or.mp h2 with ⟨ha, hb⟩
    rw [buildResult_total_words, buildResult_total_sentences]
    exact ⟨Nat.pos_of_ne_zero ha, Nat.pos_of_ne_zero hb⟩
  · intro ord text e h
    unfold analyze_text at h
    split_ifs at h with h1 h2
    · exact Or.inl (Except.error.inj h).symm
    · exact Or.inr (Except.error.inj h).symm

/-- Witness for C8: twenty dots pass the length guard, tokenize to zero
words and zero sentences, and produce the no-content error. -/
theorem noContent_spec_witness :
    analyze_text id "....................".toList = .error (.engineError noContentMsg) :=
  noContent_spec.1 id "....................".toList
    (by decide) (by with_unfolding_all decide)

/-! ## The word scanner counts letter runs on digit-free text -/

theorem noAdj_cons_cons (a b : Char) (t : List Char) :
    noAdj (a :: b :: t) = (noAdjPair a b && noAdj (b :: t)) := rfl

theorem noAdj_tail : ∀ {a : Char} {t : List Char}, noAdj (a :: t) = true → noAdj t = true := by
  intro a t h
  cases t with
  | nil => rfl
  | cons b t2 =>
    rw [noAdj_cons_cons] at h
    exact (Bool.and_eq_true _ _ |>.mp h).2

theorem noAdj_dropWhile (p : Char → Bool) (l : List Char) (h : noAdj l = true) :
    noAdj (l.dropWhile p) = true := by
  induction l with
  | nil => exact h
  | cons a t ih =>
    rw [List.dropWhile_cons]
    split_ifs with hp
    · exact ih (noAdj_tail h)
    · exact h

theorem noAdjPair_of_cons_cons {a b : Char} {t : List Char}
    (h : noAdj (a :: b :: t) = true) : noAdjPair a b = true := by
  rw [noAdj_cons_cons] at h
  exact (Bool.and_eq_true _ _ |>.mp h).1

/-- In a digit-underscore-free neighbourhood, the first character after a
maximal letter run is not a digit or underscore. -/
theorem after_run_not_digitU :
    ∀ (rest : List Char) (c d : Char) (t : List Char), noAdj (c :: rest) = true →
      isAsciiLetter c = true → rest.dropWhile isAsciiLetter = d :: t →
      isDigitU d = false := by
  intro rest
  induction rest with
  | nil =>
    intro c d t _ _ hd
    simp [List.dropWhile] at hd
  | cons b r2 ih =>
    intro c d t hna hc hd
    rw [List.dropWhile_cons] at hd
    split_ifs at hd with hb
    · exact ih b d t (noAdj_tail hna) hb hd
    · have hbd : b = d := (List.cons.inj hd).1
      subst hbd
      have hp := noAdjPair_of_cons_cons hna
      simp [noAdjPair, hc] at hp
      exact hp.1

/-- The scanner behind `findall(r'\b[a-zA-Z]+\b', ·)` returns one word per
maximal letter run when no letter touches a digit or underscore. -/
theorem wordsAux_length_eq :
    ∀ (n : Nat) (cs : List Char), cs.length ≤ n → ∀ (prevW : Bool), noAdj cs = true →
      (∀ d t, cs = d :: t → prevW = true → isAsciiLetter d = false) →
      (wordsAux prevW cs).length = letterRunCount cs := by
  intro n
  induction n with
  | zero =>
    intro cs hlen prevW _ _
    have hnil : cs = [] := List.eq_nil_of_length_eq_zero (Nat.le_zero.mp hlen)
    subst hnil
    simp [wordsAux, letterRunCount]
  | succ n ih =>
    intro cs hlen prevW hna hinv
    match cs with
    | [] => simp [wordsAux, letterRunCount]
    | c :: rest =>
      by_cases hc : isAsciiLetter c = true
      · have hprev : prevW = false := by
          cases prevW
          · rfl
          · exact absurd (hinv c rest rfl rfl) (by simp [hc])
        subst hprev
        simp only [wordsAux, hc, if_true, Bool.not_false, Bool.true_and]
        cases hrest2 : rest.dropWhile isAsciiLetter with
        | nil =>
          simp only [letterRunCount, hc, if_true]
          rw [hrest2]
          simp [wordsAux, letterRunCount]
        | cons d t2 =>
          have hdnl : isAsciiLetter d = false := by
            have hh := List.head?_dropWhile_not isAsciiLetter rest
            rw [hrest2] at hh
            simpa using hh
          have hdnd : isDigitU d = false := after_run_not_digitU rest c d t2 hna hc hrest2
          have hw : isWordChar d = false := by
            simp only [isDigitU, Bool.or_eq_false_iff] at hdnd
            simp [isWordChar, hdnl, hdnd.1, hdnd.2]
          simp only [hw, Bool.not_false, if_true]
          have hlen2 : (d :: t2).length ≤ n := by
            have h1 : (rest.dropWhile isAsciiLetter).length ≤ rest.length :=
              len_dropWhile_le _ _
            rw [hrest2] at h1
            simp only [List.length_cons] at hlen h1 ⊢
            omega
          have hna2 : noAdj (d :: t2) = true := by
            rw [← hrest2]
            exact noAdj_dropWhile _ _ (noAdj_tail hna)
          have hinv2 : ∀ d' t', (d :: t2) = d' :: t' → true = true →
              isAsciiLetter d' = false := by
            intro d' t' he _
            rw [← (List.cons.inj he).1]
            exact hdnl
          have hrec := ih (d :: t2) hlen2 true hna2 hinv2
          simp only [letterRunCount, hc, if_true]
          rw [hrest2]
          simp only [List.length_append, List.length_cons, List.length_nil]
          omega

      · replace hc : isAsciiLetter c = false := by simpa using hc
        simp only [wordsAux, hc, Bool.false_eq_true, if_false]
        have hinv2 : ∀ d t, rest = d :: t → isWordChar c = true →
            isAsciiLetter d = false := by
          intro d t hrest hwc
          have hcd : isDigitU c = true := by
            simpa [isWordChar, hc, isDigitU] using hwc
          subst hrest
          have hp := noAdjPair_of_cons_cons hna
          simp [noAdjPair, hcd] at hp
          exact hp.2
        have hlen2 : rest.length ≤ n := by
          simp only [List.length_cons] at hlen
          omega
        rw [ih rest hlen2 (isWordChar c) (noAdj_tail hna) hinv2]
        simp only [letterRunCount, hc, Bool.false_eq_true, if_false]

theorem wordsAux_length (cs : List Char) (h : noAdj cs = true) :
    (wordsAux false cs).length = letterRunCount cs :=
  wordsAux_length_eq cs.length cs (le_refl _) false h
    (fun _ _ _ hf => absurd hf (by simp))

theorem noAdjPair_pyLower (a b : Char) :
    noAdjPair (pyLower a) (pyLower b) = noAdjPair a b := by
  unfold noAdjPair
  rw [isAsciiLetter_pyLower, isAsciiLetter_pyLower, isDigitU_pyLower, isDigitU_pyLower]

theorem noAdj_map_pyLower (l : List Char) : noAdj (l.map pyLower) = noAdj l := by
  induction l with
  | nil => rfl
  | cons a t ih =>
    cases t with
    | nil => rfl
    | cons b t2 =>
      rw [List.map_cons, List.map_cons, noAdj_cons_cons, noAdj_cons_cons,
        noAdjPair_pyLower, ← List.map_cons, ih]

theorem letterRunCount_map_pyLower_aux :
    ∀ (n : Nat) (l : List Char), l.length ≤ n →
      letterRunCount (l.map pyLower) = letterRunCount l := by
  intro n
  induction n with
  | zero =>
    intro l hlen
    have hnil : l = [] := List.eq_nil_of_length_eq_zero (Nat.le_zero.mp hlen)
    subst hnil
    rfl
  | succ n ih =>
    intro l hlen
    match l with
    | [] => rfl
    | c :: rest =>
      simp only [List.map_cons, letterRunCount, isAsciiLetter_pyLower]
      have hfun : (isAsciiLetter ∘ pyLower) = isAsciiLetter := funext isAsciiLetter_pyLower
      by_cases hc : isAsciiLetter c = true
      · simp only [hc, if_true]
        rw [List.dropWhile_map, hfun]
        have hlen2 : (rest.dropWhile isAsciiLetter).length ≤ n := by
          have h1 := len_dropWhile_le isAsciiLetter rest
          simp only [List.length_cons] at hlen
          omega
        rw [ih _ hlen2]
      · replace hc : isAsciiLetter c = false := by simpa using hc
        simp only [hc, Bool.false_eq_true, if_false]
        have hlen2 : rest.length ≤ n := by
          simp only [List.length_cons] at hlen
          omega
        rw [ih _ hlen2]

theorem letterRunCount_map_pyLower (l : List Char) :
    letterRunCount (l.map pyLower) = letterRunCount l :=
  letterRunCount_map_pyLower_aux l.length l (le_refl _)

/-- C5 counterexample: the input `"hello world abc1def padding."` passes
the length guard and has 5 maximal ASCII-letter runs (`hello`, `world`,
`abc`, `def`, `padding`), but the code reports `total_words = 3`: the
regex `\b[a-zA-Z]+\b` finds no word boundary between `abc`, `1` and
`def`, so both runs adjacent to the digit are dropped, not split. -/
theorem total_words_cex :
    20 ≤ (pyStrip "hello world abc1def padding.".toList).length ∧
    letterRunCount "hello world abc1def padding.".toList = 5 ∧
    totalWordsOf (analyze_text id "hello world abc1def padding.".toList) = some 3 ∧
    totalWordsOf (analyze_text id "hello world abc1def padding.".toList) ≠
      some (letterRunCount "hello world abc1def padding.".toList) := by
  with_unfolding_all decide

/-- C5 amended: on texts in which no letter is adjacent to a digit or
underscore, `total_words` equals the number of maximal ASCII-letter runs;
in general a run adjacent to a digit or underscore yields no word at all
(the whole run is dropped, not split, as the counterexample shows). -/
theorem total_words_amended (ord : List (List Char) → List (List Char))
    (text : List Char) (r : Result) (h : analyze_text ord text = .ok r)
    (hna : noAdj text = true) : r.total_words = letterRunCount text := by
  rcases (analyze_ok_iff ord text r).mp h with ⟨_, _, rfl⟩
  rw [buildResult_total_words, findWords]
  rw [wordsAux_length _ (by rw [noAdj_map_pyLower]; exact hna)]
  exact letterRunCount_map_pyLower text

/-- Witness for the amended C5 at the spec's end-to-end fixture. -/
theorem total_words_amended_witness :
    analyze_text id "The cat sat. It was happy.".toList =
      .ok (buildResult id "The cat sat. It was happy.".toList) ∧
    noAdj "The cat sat. It was happy.".toList = true ∧
    (buildResult id "The cat sat. It was happy.".toList).total_words =
      letterRunCount "The cat sat. It was happy.".toList :=
  ⟨by with_unfolding_all rfl, by decide,
    total_words_amended id "The cat sat. It was happy.".toList _
      (by with_unfolding_all rfl) (by decide)⟩

/-! ## The academic-vocabulary set -/

theorem pyDedup_mem_aux :
    ∀ (n : Nat) (l : List (List Char)), l.length ≤ n →
      ∀ x : List Char, x ∈ pyDedup l ↔ x ∈ l := by
  intro n
  induction n with
  | zero =>
    intro l hlen x
    have hnil : l = [] := List.eq_nil_of_length_eq_zero (Nat.le_zero.mp hlen)
    subst hnil
    rw [pyDedup]
  | succ n ih =>
    intro l hlen x
    match l with
    | [] => rw [pyDedup]
    | a :: t =>
      rw [pyDedup]
      have hlen2 : (t.filter fun y => y != a).length ≤ n := by
        have := List.length_filter_le (fun y => y != a) t
        simp only [List.length_cons] at hlen
        omega
      rw [List.mem_cons, ih _ hlen2 x, List.mem_filter, List.mem_cons]
      by_cases hx : x = a
      · simp [hx]
      · simp [hx, bne_iff_ne]

theorem pyDedup_mem (l : List (List Char)) (x : List Char) :
    x ∈ pyDedup l ↔ x ∈ l :=
  pyDedup_mem_aux l.length l (le_refl _) x

theorem pyDedup_nodup_aux :
    ∀ (n : Nat) (l : List (List Char)), l.length ≤ n → (pyDedup l).Nodup := by
  intro n
  induction n with
  | zero =>
    intro l hlen
    have hnil : l = [] := List.eq_nil_of_length_eq_zero (Nat.le_zero.mp hlen)
    subst hnil
    rw [pyDedup]
    exact List.nodup_nil
  | succ n ih =>
    intro l hlen
    match l with
    | [] => rw [pyDedup]; exact List.nodup_nil
    | a :: t =>
      rw [pyDedup]
      have hlen2 : (t.filter fun y => y != a).length ≤ n := by
        have := List.length_filter_le (fun y => y != a) t
        simp only [List.length_cons] at hlen
        omega
      rw [List.nodup_cons]
      refine ⟨?_, ih _ hlen2⟩
      intro hmem
      have := (pyDedup_mem _ a).mp hmem
      rw [List.mem_filter] at this
      simp at this

theorem pyDedup_nodup (l : List (List Char)) : (pyDedup l).Nodup :=
  pyDedup_nodup_aux l.length l (le_refl _)

/-- C9 counterexample: `list(set)` follows the set's unspecified
iteration order, not first-seen order.  With the valid iteration order
`List.reverse` (a permutation of the set), the extracted sample on
`"beautiful wonderful things happen."` differs from the first-15 prefix
of the first-seen deduplication. -/
theorem academic_sample_cex :
    (List.reverse (pyDedup (((findWords "beautiful wonderful things happen.".toList).filter
        isAcademic)))).Perm
      (pyDedup ((findWords "beautiful wonderful things happen.".toList).filter isAcademic)) ∧
    extractedOf (analyze_text List.reverse "beautiful wonderful things happen.".toList) ≠
      some ((pyDedup ((findWords "beautiful wonderful things happen.".toList).filter
        isAcademic)).take 15) := by
  constructor
  · exact List.reverse_perm _
  · with_unfolding_all decide

/-- C9 amended: a word is in the academic set iff it occurs in the text
and its length is ≥ 9, or its length is ≥ 7 and it has ≥ 3 syllables;
the reported count is the number of distinct such words, unaffected by
truncation; the extracted sample is the first 15 elements of the set in
the (unspecified) set-iteration order — 15 distinct qualifying words,
but not necessarily the first-seen ones. -/
theorem academic_vocab_amended :
    ∀ (ord : List (List Char) → List (List Char)), (∀ l, (ord l).Perm l) →
    ∀ (text : List Char) (r : Result), analyze_text ord text = .ok r →
      (∀ w, w ∈ pyDedup ((findWords text).filter isAcademic) ↔
        (w ∈ findWords text ∧ isAcademic w = true)) ∧
      r.academic_vocabulary_count = (pyDedup ((findWords text).filter isAcademic)).length ∧
      (pyDedup ((findWords text).filter isAcademic)).Nodup ∧
      r.academic_vocabulary_extracted =
        (ord (pyDedup ((findWords text).filter isAcademic))).take 15 ∧
      r.academic_vocabulary_extracted.Nodup ∧
      r.academic_vocabulary_extracted.length ≤ 15 ∧
      (∀ w ∈ r.academic_vocabulary_extracted, w ∈ findWords text ∧ isAcademic w = true) := by
  intro ord hord text r h
  rcases (analyze_ok_iff ord text r).mp h with ⟨_, _, rfl⟩
  have hperm := hord (pyDedup ((findWords text).filter isAcademic))
  have hnodupOrd : (ord (pyDedup ((findWords text).filter isAcademic))).Nodup :=
    hperm.nodup_iff.mpr (pyDedup_nodup _)
  refine ⟨?_, ?_, pyDedup_nodup _, buildResult_academic_extracted ord text, ?_, ?_, ?_⟩
  · intro w
    rw [pyDedup_mem, List.mem_filter]
  · rw [buildResult_academic_count, hperm.length_eq]
  · rw [buildResult_academic_extracted]
    exact (List.take_sublist 15 _).nodup hnodupOrd
  · rw [buildResult_academic_extracted, List.length_take]
    exact min_le_left _ _
  · intro w hw
    rw [buildResult_academic_extracted] at hw
    have hw2 : w ∈ ord (pyDedup ((findWords text).filter isAcademic)) :=
      List.take_subset _ _ hw
    have hw3 := (hperm.mem_iff).mp hw2
    rw [pyDedup_mem, List.mem_filter] at hw3
    exact hw3

/-- Witness for the amended C9: with the identity iteration order on the
concrete input, the reported count equals the distinct-qualifying count. -/
theorem academic_vocab_amended_witness :
    analyze_text id "beautiful wonderful things happen.".toList =
      .ok (buildResult id "beautiful wonderful things happen.".toList) ∧
    (buildResult id "beautiful wonderful things happen.".toList).academic_vocabulary_count =
      (pyDedup ((findWords "beautiful wonderful things happen.".toList).filter
        isAcademic)).length :=
  ⟨by with_unfolding_all rfl,
    (academic_vocab_amended id (fun l => List.Perm.refl l)
      "beautiful wonderful things happen.".toList _ (by with_unfolding_all rfl)).2.1⟩

/-! ## Case-insensitivity of the pipeline -/

theorem pyStrip_map_pyLower (l : List Char) :
    pyStrip (l.map pyLower) = (pyStrip l).map pyLower := by
  unfold pyStrip
  have hfun : (isPySpace ∘ pyLower) = isPySpace := funext isPySpace_pyLower
  rw [List.dropWhile_map, hfun, ← List.map_reverse, List.dropWhile_map, hfun, ← List.map_reverse]

theorem findWords_map_pyLower (text : List Char) :
    findWords (text.map pyLower) = findWords text := by
  unfold findWords
  rw [List.map_map]
  congr 1
  exact List.map_congr_left fun c _ => pyLower_pyLower c

theorem splitSents_map_pyLower_aux :
    ∀ (n : Nat) (cs : List Char), cs.length ≤ n →
      splitSents (cs.map pyLower) = (splitSents cs).map (List.map pyLower) := by
  intro n
  have hfun : ((fun c => !isSentDelim c) ∘ pyLower) = fun c => !isSentDelim c :=
    funext fun c => by simp [isSentDelim_pyLower]
  induction n with
  | zero =>
    intro cs hlen
    have hnil : cs = [] := List.eq_nil_of_length_eq_zero (Nat.le_zero.mp hlen)
    subst hnil
    simp [splitSents]
  | succ n ih =>
    intro cs hlen
    rw [splitSents, splitSents, List.dropWhile_map, hfun, List.takeWhile_map, hfun]
    cases hdrop : cs.dropWhile (fun c => !isSentDelim c) with
    | nil => simp
    | cons d t =>
      simp only [List.map_cons, List.map_nil]
      have hlen2 : (t.dropWhile isSentDelim).length ≤ n := by
        have h1 : (cs.dropWhile (fun c => !isSentDelim c)).length ≤ cs.length :=
          len_dropWhile_le _ _
        rw [hdrop] at h1
        have h2 := len_dropWhile_le isSentDelim t
        simp only [List.length_cons] at h1
        omega
      rw [List.dropWhile_map, (funext isSentDelim_pyLower : isSentDelim ∘ pyLower = isSentDelim),
        ih _ hlen2]

theorem splitSents_map_pyLower (cs : List Char) :
    splitSents (cs.map pyLower) = (splitSents cs).map (List.map pyLower) :=
  splitSents_map_pyLower_aux cs.length cs (le_refl _)

theorem sentencesOf_map_pyLower (text : List Char) :
    (sentencesOf (text.map pyLower)).length = (sentencesOf text).length := by
  unfold sentencesOf
  rw [splitSents_map_pyLower, List.filter_map, List.length_map]
  congr 1
  apply congrArg (fun p => List.filter p (splitSents text))
  funext s
  simp only [Function.comp_apply]
  rw [pyStrip_map_pyLower, List.length_map]

theorem buildResult_map_pyLower (ord : List (List Char) → List (List Char))
    (text : List Char) : buildResult ord (text.map pyLower) = buildResult ord text := by
  simp only [buildResult, findWords_map_pyLower, sentencesOf_map_pyLower]

/-- C10: the analysis is case-insensitive: lowercasing the input first
changes neither the result nor the error, because words are extracted
from the lowercased text, `count_syllables` lowercases its argument, and
sentences contribute only their count. -/
theorem analyze_lower_invariant (ord : List (List Char) → List (List Char))
    (text : List Char) :
    analyze_text ord (text.map pyLower) = analyze_text ord text := by
  have hst : (pyStrip (text.map pyLower)).length = (pyStrip text).length := by
    rw [pyStrip_map_pyLower, List.length_map]
  simp only [analyze_text, List.map_eq_nil_iff, hst, findWords_map_pyLower,
    sentencesOf_map_pyLower, buildResult_map_pyLower]

end EnglishAnalyzer
